import Mathlib

/-!
Verification of the GitHub link-resolution pipeline of the
`almostSouji/discord-toolkit-bot` repository
(`src/functions/github/handler.ts` and the related handler variant).

The TypeScript source is shallowly embedded below.  Pure string and list
operations from JavaScript are modelled on `List Char` so that every
definition is executable by the kernel.  The network fetch layer is
modelled as an oracle `String → Option String` (`none` stands for a non-2xx
response).  Helper modules of the repository that are not part of the
provided sources (`utils.ts`, `regex.ts`, `array.ts`, `constants.ts`) are
modelled from the specification; each of those carries a doc comment
starting with "Modelled from the spec:".
-/

/-! ## JavaScript string and array primitives -/

/-- Model of JavaScript `String.prototype.split` with a single-character
separator, on character lists.  `"".split(sep)` yields `[""]`, matching
JavaScript. -/
def splitOnCharL (sep : Char) : List Char → List (List Char)
  | [] => [[]]
  | c :: rest =>
    match splitOnCharL sep rest with
    | [] => [[c]]
    | h :: t => if c = sep then [] :: h :: t else (c :: h) :: t

/-- Model of JavaScript `Array.prototype.join` with a separator string. -/
def joinSep (sep : String) : List String → String
  | [] => ""
  | [s] => s
  | s :: b :: rest => s ++ sep ++ joinSep sep (b :: rest)

/-- Model of JavaScript `String.prototype.includes` for a non-empty pattern:
`listIncludes pat l` is true when `pat` occurs as a contiguous sublist of
`l`. -/
def listIncludes (pat : List Char) : List Char → Bool
  | [] => pat.isPrefixOf []
  | c :: rest => pat.isPrefixOf (c :: rest) || listIncludes pat rest

/-- `strIncludes s pat` models JavaScript `s.includes(pat)`. -/
def strIncludes (s pat : String) : Bool :=
  listIncludes pat.data s.data

/-- Model of JavaScript `String.prototype.replace` with a non-empty literal
pattern: replaces the first (leftmost) occurrence of `pat` by `rep`, or
returns the input unchanged when `pat` does not occur. -/
def replaceFirstL (pat rep : List Char) : List Char → List Char
  | [] => []
  | c :: rest =>
    if pat.isPrefixOf (c :: rest) then rep ++ (c :: rest).drop pat.length
    else c :: replaceFirstL pat rep rest

/-- Model of JavaScript `String.prototype.replace` with an alternation of
non-empty literal patterns (such as the regex `/\/(?:blob|(?:blame))/`):
at the leftmost position where some pattern matches, the first pattern of
the list that matches there is replaced by `rep`. -/
def replaceFirstAltL (pats : List (List Char)) (rep : List Char) : List Char → List Char
  | [] => []
  | c :: rest =>
    match pats.find? (fun p => p.isPrefixOf (c :: rest)) with
    | some p => rep ++ (c :: rest).drop p.length
    | none => c :: replaceFirstAltL pats rep rest

/-- Splits a character list at the first occurrence of a non-empty pattern:
returns the part before the occurrence and the part after it. -/
def splitFirstL (pat : List Char) : List Char → Option (List Char × List Char)
  | [] => none
  | c :: rest =>
    if pat.isPrefixOf (c :: rest) then some ([], (c :: rest).drop pat.length)
    else (splitFirstL pat rest).map (fun pr => (c :: pr.1, pr.2))

/-- Decimal value of a list of digit characters (most significant first). -/
def digitsToNat (l : List Char) : Nat :=
  l.foldl (fun acc c => acc * 10 + (c.toNat - 48)) 0

/-- Model of JavaScript `Array.prototype.slice(start, end)`, including the
negative-index behaviour (a negative index counts from the end of the
array, clamped at 0). -/
def jsSlice {α : Type} (l : List α) (start stop : Int) : List α :=
  let len : Int := l.length
  let s : Int := if start < 0 then max (len + start) 0 else min start len
  let e : Int := if stop < 0 then max (len + stop) 0 else min stop len
  (l.drop s.toNat).take (e - s).toNat

/-- Model of the JavaScript truthiness pattern `x ? x : d` for an optional
number `x`: `undefined` and `0` are falsy. -/
def jsOr (o : Option Nat) (d : Nat) : Nat :=
  match o with
  | none => d
  | some k => if k = 0 then d else k

/-- Model of the JavaScript truthiness pattern `x || d` for a number `x`:
`0` is falsy. -/
def jsOrNat (a d : Nat) : Nat :=
  if a = 0 then d else a

/-! ## Helper modules modelled from the spec -/

/-- Modelled from the spec: `resolveLines` from
`src/functions/github/utils.ts` (not under the provided sources), §4.1 of
the spec.  The qualifier may contain markers `L<digits>` separated by `-`
(for Gist qualifiers the leading file name tokens carry no `L` marker and
are ignored).  With no marker present, `startLine` defaults to 1 and
`endLine` is absent; with one marker only `startLine` is set; malformed
qualifiers never fail and fall back to the defaults. -/
structure LineRange where
  startLine : Nat
  endLine : Option Nat
deriving DecidableEq

/-- Modelled from the spec: parses one `L<digits>` token of a qualifier. -/
def parseLineToken (t : List Char) : Option Nat :=
  match t with
  | 'L' :: rest =>
    if rest.isEmpty then none
    else if rest.all (fun c => c.isDigit) then some (digitsToNat rest) else none
  | _ => none

/-- Modelled from the spec: the Line-Range Resolver `resolveLines` (§4.1). -/
def resolveLines (opts : Option String) : LineRange :=
  match opts with
  | none => ⟨1, none⟩
  | some s =>
    match (splitOnCharL '-' s.data).filterMap parseLineToken with
    | [] => ⟨1, none⟩
    | [a] => ⟨a, none⟩
    | a :: b :: _ => ⟨a, some b⟩

/-- Modelled from the spec: the fixed extension-to-language table backing
`resolveFileLanguage` (§4.2); unknown extensions fall back to `"ansi"`. -/
def languageTable : List (String × String) :=
  [("js", "js"), ("jsx", "jsx"), ("ts", "ts"), ("tsx", "tsx"), ("go", "go"),
   ("py", "py"), ("rs", "rs"), ("rb", "rb"), ("java", "java"), ("c", "c"),
   ("cpp", "cpp"), ("cs", "cs"), ("json", "json"), ("md", "md"), ("sh", "sh"),
   ("yml", "yml"), ("yaml", "yaml"), ("toml", "toml"), ("css", "css"), ("html", "html")]

/-- Modelled from the spec: `resolveFileLanguage` from
`src/functions/github/utils.ts` (§4.2): lowercased language tag derived
from the file extension of a path or URL, `"ansi"` when unknown or
absent. -/
def resolveFileLanguage (path : String) : String :=
  let base := path.data.takeWhile (fun c => c != '#' && c != '?')
  let fileName := ((splitOnCharL '/' base).getLast?).getD []
  let parts := splitOnCharL '.' fileName
  if parts.length ≤ 1 then "ansi"
  else
    let ext := String.mk ((parts.getLast?.getD []).map Char.toLower)
    match languageTable.find? (fun p => p.1 == ext) with
    | some p => p.2
    | none => "ansi"

/-- Number of leading space or tab characters of a line. -/
def leadingWs (s : String) : Nat :=
  (s.data.takeWhile (fun c => c == ' ' || c == '\t')).length

/-- Modelled from the spec: `trimLeadingIndent` from `src/util/array.ts`
(§4.5): removes the common leading indentation shared by all lines,
keeping relative indentation intact. -/
def trimLeadingIndent (lines : List String) : List String :=
  match (lines.map leadingWs).min? with
  | none => []
  | some k => lines.map (fun s => String.mk (s.data.drop k))

/-- Left-pads a string with spaces up to the given width (JavaScript
`String.prototype.padStart` with a space filler). -/
def padStartStr (s : String) (w : Nat) : String :=
  String.mk (List.replicate (w - s.data.length) ' ') ++ s

/-- Modelled from the spec: `formatLine` from
`src/functions/github/utils.ts` (§4.5): prefixes the line with its
absolute line number aligned to the width of the end line number.  The
`ansi` flag selects a plain styling; the styling itself carries no extra
characters in this model, so both stylings coincide. -/
def formatLine (line : String) (startLine endLine index : Nat) (_ansi : Bool) : String :=
  padStartStr (Nat.repr (startLine + index)) (Nat.repr endLine).data.length ++ " " ++ line

/-- Modelled from the spec: `generateHeader` from
`src/functions/github/utils.ts` (§4.5): the display path followed by the
line range, with a truncation marker when `ellipsed` is set. -/
def generateHeader (startLine : Nat) (endLine : Int) (path : String) (ellipsed : Bool) : String :=
  path ++ " L" ++ Nat.repr startLine ++ "-L" ++ Int.repr endLine ++
    (if ellipsed then " (truncated)" else "")

/-- Step function for `truncateArray`: keeps accumulating lines while the
joined length (with one separator character between lines) stays within
the limit. -/
def truncArrGo (limit : Int) : List String → Int → Bool → List String
  | [], _, _ => []
  | s :: rest, acc, first =>
    let acc2 : Int := acc + (if first then 0 else 1) + s.data.length
    if acc2 ≤ limit then s :: truncArrGo limit rest acc2 false else []

/-- Modelled from the spec: `truncateArray` from `src/util/array.ts`
(§4.5): the longest prefix of the lines whose newline-joined rendering
fits within the given character limit (a non-positive limit keeps no
line with content). -/
def truncateArray (arr : List String) (limit : Int) : List String :=
  truncArrGo limit arr 0 true

/-- The `codeBlock` helper of the external `discord.js` library: wraps the
content in a fenced code block tagged with a language. -/
def codeBlock (lang content : String) : String :=
  "```" ++ lang ++ "\n" ++ content ++ "\n```"

/-- Model of the `pathname` property of the Node.js `URL` class for the
HTTP(S) URLs handled here: the part after the host, up to a query or
fragment delimiter, `"/"` when empty. -/
def urlPathname (url : String) : String :=
  match splitFirstL "://".data url.data with
  | none => url
  | some pr =>
    let afterHost := pr.2.dropWhile (fun c => c != '/')
    let path := afterHost.takeWhile (fun c => c != '#' && c != '?')
    if path.isEmpty then "/" else String.mk path

/-! ## URL patterns modelled from the spec -/

/-- Modelled from the spec: `URL_REGEX` from `src/util/constants.ts`
(§4.3): a generic URL pattern.  `scanUrlsAux` scans the text from the
left; at each position where an `http(s)://` scheme starts, the maximal
run of non-whitespace characters is taken as one URL occurrence and
scanning continues after it (the behaviour of `matchAll`). -/
def scanUrlsAux : Nat → List Char → List (List Char)
  | 0, _ => []
  | _ + 1, [] => []
  | fuel + 1, c :: rest =>
    if "https://".data.isPrefixOf (c :: rest) || "http://".data.isPrefixOf (c :: rest) then
      let u := (c :: rest).takeWhile (fun ch => !ch.isWhitespace)
      u :: scanUrlsAux fuel ((c :: rest).drop u.length)
    else scanUrlsAux fuel rest

/-- Modelled from the spec: all URL occurrences of a text, in order, one
entry per occurrence (`text.matchAll(URL_REGEX)`). -/
def scanUrls (text : String) : List String :=
  (scanUrlsAux text.data.length text.data).map String.mk

/-- Extracts the fragment of a URL (the part after the first `#`), absent
when there is no fragment or it is empty. -/
def fragmentOpts (url : String) : Option String :=
  match splitFirstL ['#'] url.data with
  | none => none
  | some pr => if pr.2.isEmpty then none else some (String.mk pr.2)

/-- Modelled from the spec: `NormalGitHubUrlRegex` from
`src/functions/github/regex.ts` (§4.3, §6): matches a GitHub file URL
containing a `/blob/` or `/blame/` segment; the whole URL is the match and
the named group `opts` carries the fragment (such as `L5-L10`). -/
def normalExec (url : String) : Option (String × Option String) :=
  if "https://github.com/".data.isPrefixOf url.data
      && (strIncludes url "/blob/" || strIncludes url "/blame/") then
    some (url, fragmentOpts url)
  else none

/-- Extracts the Gist file qualifier of a URL: the part after `#file-`,
absent when there is none or it is empty. -/
def gistFragmentOpts (url : String) : Option String :=
  match splitFirstL "#file-".data url.data with
  | none => none
  | some pr => if pr.2.isEmpty then none else some (String.mk pr.2)

/-- Modelled from the spec: `GistGitHubUrlRegex` from
`src/functions/github/regex.ts` (§4.3, §6) used as a matcher: matches a
`gist.github.com` URL; the whole URL is the match and the group `opts`
carries the file qualifier after `#file-`. -/
def gistExecMatch (url : String) : Option (String × Option String) :=
  if "https://gist.github.com/".data.isPrefixOf url.data then
    some (url, gistFragmentOpts url)
  else none

/-- The named capture groups of `GistGitHubUrlRegex`; a group may be
absent or empty (both falsy in JavaScript). -/
structure GistGroups where
  user : Option String
  id : Option String
  opts : Option String
deriving DecidableEq

/-- Modelled from the spec: `GistGitHubUrlRegex` from
`src/functions/github/regex.ts` used with its named groups `user`, `id`
and `opts` (§4.3, §6): the first two path segments after the host are the
user and the Gist id, the qualifier follows `#file-`. -/
def gistExec (url : String) : Option GistGroups :=
  if "https://gist.github.com/".data.isPrefixOf url.data then
    let rest := url.data.drop "https://gist.github.com/".data.length
    let beforeHash := rest.takeWhile (fun c => c != '#')
    let segs := splitOnCharL '/' beforeHash
    some ⟨(segs[0]?).map String.mk, (segs[1]?).map String.mk, gistFragmentOpts url⟩
  else none

/-- JavaScript falsiness of an optional string group: absent or empty. -/
def jsFalsyS (o : Option String) : Bool :=
  match o with
  | none => true
  | some s => s.data.isEmpty

/-! ## Embedding of `src/functions/github/handler.ts` -/

/-- `SAFE_BOUNDARY` from `handler.ts` line 11. -/
def SAFE_BOUNDARY : Nat := 100

/-- `GitHubUrlType` from `handler.ts` lines 13-17. -/
inductive GitHubUrlType where
  | Normal
  | Gist
  | Diff
deriving DecidableEq, BEq

/-- One step of the regex `/(?:-L\d+)+/`: the length of a leading
`-L<digits>` marker, when present. -/
def parseOneLMarker (l : List Char) : Option Nat :=
  match l with
  | '-' :: 'L' :: rest =>
    let ds := rest.takeWhile (fun c => c.isDigit)
    if ds.isEmpty then none else some (2 + ds.length)
  | _ => none

/-- Length of the maximal `(?:-L\d+)+` run starting at the head of the
list (fuelled iteration of `parseOneLMarker`; each marker consumes at
least three characters, so fuel equal to the list length suffices). -/
def lRunAux : Nat → List Char → Nat
  | 0, _ => 0
  | fuel + 1, l =>
    match parseOneLMarker l with
    | none => 0
    | some n => n + lRunAux fuel (l.drop n)

/-- Model of `url.replace(/(?:-L\d+)+/, "")` from `handler.ts` line 42:
removes the first maximal run of `-L<digits>` markers. -/
def stripLineMarkersL : List Char → List Char
  | [] => []
  | c :: rest =>
    match parseOneLMarker (c :: rest) with
    | some n =>
      let total := n + lRunAux rest.length ((c :: rest).drop n)
      (c :: rest).drop total
    | none => c :: stripLineMarkersL rest

/-- String wrapper for `stripLineMarkersL`. -/
def stripLineMarkers (url : String) : String :=
  String.mk (stripLineMarkersL url.data)

/-- The `Normal` converter from `handler.ts` lines 31-35:
`url.replace(">", "").replace("github.com", "raw.githubusercontent.com")
.replace(/\/(?:blob|(?:blame))/, "")`. -/
def converterNormal (url : String) : String :=
  String.mk
    (replaceFirstAltL ["/blob".data, "/blame".data] []
      (replaceFirstL "github.com".data "raw.githubusercontent.com".data
        (replaceFirstL ['>'] [] url.data)))

/-- The `Gist` converter from `handler.ts` lines 40-52: re-executes the
Gist regex on the URL with line markers stripped, returns `null` when the
`user`, `id` or `opts` group is missing, and otherwise builds a direct
per-file raw URL from the qualifier. -/
def converterGist (url : String) : Option String :=
  match gistExec (stripLineMarkers url) with
  | none => none
  | some g =>
    if jsFalsyS g.user || jsFalsyS g.id || jsFalsyS g.opts then none
    else
      let parts := (splitOnCharL '-' (g.opts.getD "").data).map String.mk
      let fileName := joinSep "." parts.dropLast
      let extension := (parts.getLast?).getD ""
      some ("https://gist.githubusercontent.com/" ++ g.user.getD "" ++ "/" ++ g.id.getD ""
        ++ "/raw/" ++ fileName ++ "." ++ extension)

/-- One entry of the `validators` table from `handler.ts` lines 27-54:
a shape tag, the matching pattern (modelled as an exec function returning
the full match and the `opts` group) and the converter. -/
structure Validator where
  type : GitHubUrlType
  regex : String → Option (String × Option String)
  converter : String → Option String

/-- The `validators` table from `handler.ts` lines 27-54, in source order
(`Normal` before `Gist`).  The `Normal` converter always returns a string
(never `null`). -/
def validators : List Validator :=
  [⟨GitHubUrlType.Normal, normalExec, fun url => some (converterNormal url)⟩,
   ⟨GitHubUrlType.Gist, gistExecMatch, converterGist⟩]

/-- `GitHubMatchResult` from `handler.ts` lines 19-25. -/
structure GitHubMatchResult where
  converter : String → Option String
  opts : Option String
  regex : String → Option (String × Option String)
  type : GitHubUrlType
  url : String

/-- `matchGitHubUrls` from `handler.ts` lines 56-79.  The source computes
`new Set(text.matchAll(URL_REGEX))`: the elements of that set are the
per-occurrence match-array objects, which are distinct objects even for
equal URL strings, so the set keeps every occurrence in insertion order.
Each occurrence is then classified by the first validator whose pattern
matches, dropped when none matches or when the full match is empty. -/
def matchGitHubUrls (text : String) : List GitHubMatchResult :=
  let urls := scanUrls text
  urls.filterMap (fun url =>
    match validators.find? (fun v => (v.regex url).isSome) with
    | none => none
    | some v =>
      match v.regex url with
      | none => none
      | some pr =>
        if pr.1.data.isEmpty then none
        else some ⟨v.converter, pr.2, v.regex, v.type, pr.1⟩)

/-- `AttachmentPayload` of the external `discord.js` library as used here:
the attachment bytes (`Buffer.from` of a string) and a file name. -/
structure AttachmentPayload where
  attachment : String
  name : String
deriving DecidableEq

/-- `ResolvedGitHubResult` from `handler.ts` lines 81-84. -/
structure ResolvedGitHubResult where
  content : String
  files : List AttachmentPayload
deriving DecidableEq

/-- `handler.ts` line 99: `rawFile.split("\n")`. -/
def parsedLinesOf (rawFile : String) : List String :=
  (splitOnCharL '\n' rawFile.data).map String.mk

/-- `handler.ts` line 102: `Math.min(startLine, parsedLines.length)`. -/
def safeStartOf (opts : Option String) (n : Nat) : Nat :=
  min (resolveLines opts).startLine n

/-- `handler.ts` line 103:
`Math.min(endLine ? endLine : startLine, parsedLines.length)`. -/
def safeEndOf (opts : Option String) (n : Nat) : Nat :=
  min (jsOr (resolveLines opts).endLine (resolveLines opts).startLine) n

/-- `handler.ts` line 106:
`parsedLines.slice(safeStartLine - 1, safeEndLine)`. -/
def linesRequestedOf (rawFile : String) (opts : Option String) : List String :=
  let n := (parsedLinesOf rawFile).length
  jsSlice (parsedLinesOf rawFile) ((safeStartOf opts n : Int) - 1) (safeEndOf opts n : Int)

/-- `handler.ts` line 107:
`linesRequested.some((line) => line.includes("```"))`. -/
def hasCodeBlockOf (rawFile : String) (opts : Option String) : Bool :=
  (linesRequestedOf rawFile opts).any (fun line => strIncludes line "```")

/-- `handler.ts` lines 109-113: the header generated from the clamped
range before any truncation. -/
def headerOf (rawFile : String) (opts : Option String) (path : String) : String :=
  generateHeader (safeStartOf opts (parsedLinesOf rawFile).length)
    (safeEndOf opts (parsedLinesOf rawFile).length : Int) path false

/-- `handler.ts` lines 121 and 150: the attachment file name. -/
def attachName (type : GitHubUrlType) (path lang : String) : String :=
  if type == GitHubUrlType.Gist then path ++ "." ++ lang else path

/-- `handler.ts` lines 118-123 and 146-152: the single raw-slice
attachment. -/
def attachmentOf (rawFile : String) (opts : Option String) (type : GitHubUrlType)
    (path lang : String) : AttachmentPayload :=
  ⟨joinSep "\n" (linesRequestedOf rawFile opts), attachName type path lang⟩

/-- `handler.ts` lines 128-130: the numbered lines after trimming common
indentation. -/
def formattedLinesOf (rawFile : String) (opts : Option String) (lang : String) : List String :=
  let n := (parsedLinesOf rawFile).length
  (trimLeadingIndent (linesRequestedOf rawFile opts)).enum.map
    (fun p => formatLine p.2 (safeStartOf opts n) (safeEndOf opts n) p.1 (lang == "ansi"))

/-- `handler.ts` line 132: `truncateArray(formattedLines,
2000 - (header.length + SAFE_BOUNDARY + lang.length))`. -/
def safeLinesOf (rawFile : String) (opts : Option String) (path lang : String) : List String :=
  truncateArray (formattedLinesOf rawFile opts lang)
    ((2000 : Int) -
      (((headerOf rawFile opts path).length + SAFE_BOUNDARY + lang.length : Nat) : Int))

/-- `handler.ts` lines 134-142: the regenerated header (reflecting the
actual rendered end line, marked ellipsed when lines were dropped)
joined with the fenced code block; an empty join is replaced by the
literal placeholder. -/
def inlineContentOf (rawFile : String) (opts : Option String) (path lang : String) : String :=
  let sl := safeLinesOf rawFile opts path lang
  let s := safeStartOf opts (parsedLinesOf rawFile).length
  let joined := joinSep "\n" sl
  generateHeader s ((sl.length : Int) + (s : Int) - 1) path
      (sl.length != (linesRequestedOf rawFile opts).length)
    ++ "\n"
    ++ codeBlock lang (if joined.data.isEmpty then "Couldn\x27t find any lines" else joined)

/-- The body of the `for` loop of `resolveGitHubResults` (`handler.ts`
lines 89-159) for one match: `continue` is `none`, `results.push` is
`some`.  The fetch layer is the oracle `fetch`; JavaScript falsiness of
the converter result and of the fetched body (empty strings) is checked
as in the source. -/
def resolveOne (fetch : String → Option String) (m : GitHubMatchResult) :
    Option ResolvedGitHubResult :=
  match m.converter m.url with
  | none => none
  | some rawUrl =>
    if rawUrl.data.isEmpty then none
    else
      match fetch rawUrl with
      | none => none
      | some rawFile =>
        if rawFile.data.isEmpty then none
        else
          let lang := resolveFileLanguage rawUrl
          let path := urlPathname m.url
          if hasCodeBlockOf rawFile m.opts then
            some ⟨headerOf rawFile m.opts path,
              [attachmentOf rawFile m.opts m.type path lang]⟩
          else
            let content := inlineContentOf rawFile m.opts path lang
            if 2000 ≤ content.length then
              some ⟨headerOf rawFile m.opts path,
                [attachmentOf rawFile m.opts m.type path lang]⟩
            else some ⟨content, []⟩

/-- `resolveGitHubResults` from `handler.ts` lines 86-163: iterates over
the matches in order, pushing at most one result per match. -/
def resolveGitHubResults (fetch : String → Option String)
    (ms : List GitHubMatchResult) : List ResolvedGitHubResult :=
  ms.foldl
    (fun results m =>
      match resolveOne fetch m with
      | some r => results ++ [r]
      | none => results)
    []

/-! ## Embedding of the clamp of the handler variant (`part_000`) -/

/-- The variant handler's start-line clamp (`part_000` line 125):
`Math.min(startLine || 1, parsedLines.length)`. -/
def safeStartLineMeta (startLine n : Nat) : Nat :=
  min (jsOrNat startLine 1) n

/-- The variant handler's end-line clamp (`part_000` line 127):
`Math.min(endLine ? endLine : startLine || parsedLines.length,
parsedLines.length)`. -/
def safeEndLineMeta (startLine : Nat) (endLine : Option Nat) (n : Nat) : Nat :=
  min (jsOr endLine (jsOrNat startLine n)) n


/-! ## Concrete fixtures used by witnesses and counterexamples -/

/-- A match as produced by `matchGitHubUrls` for a `Normal` URL. -/
def mkNormalMatch (url : String) (opts : Option String) : GitHubMatchResult :=
  ⟨fun u => some (converterNormal u), opts, normalExec, GitHubUrlType.Normal, url⟩

/-- A 2100-character repeated path segment. -/
def longB : String := String.mk (List.replicate 2100 'b')

/-- A GitHub URL whose path is pathologically long. -/
def c1xUrl : String := "https://github.com/" ++ longB

/-- The raw URL the `Normal` converter produces for `c1xUrl`. -/
def c1xRaw : String := converterNormal c1xUrl

/-- The display path of `c1xUrl`. -/
def c1xPath : String := urlPathname c1xUrl

/-- Fetch oracle serving a single-line body containing a code fence. -/
def c1xFetch : String → Option String :=
  fun u => if u = c1xRaw then some "```" else none

/-- The match for `c1xUrl` with no line qualifier. -/
def c1xMatch : GitHubMatchResult := mkNormalMatch c1xUrl none

/-- A small GitHub URL for the inline rendering path. -/
def c1wUrl : String := "https://github.com/u/r/blob/main/b.go#L1-L3"

/-- The raw URL for `c1wUrl`. -/
def c1wRaw : String := converterNormal c1wUrl

/-- Fetch oracle serving a four-line file. -/
def c1wFetch : String → Option String :=
  fun u => if u = c1wRaw then some "  a
  b
  c
d" else none

/-- The match for `c1wUrl` requesting lines 1 to 3. -/
def c1wMatch : GitHubMatchResult := mkNormalMatch c1wUrl (some "L1-L3")

/-- A small GitHub URL for the fence-escape path. -/
def c2Url : String := "https://github.com/u/r/blob/main/a.md#L1"

/-- The raw URL for `c2Url`. -/
def c2Raw : String := converterNormal c2Url

/-- Fetch oracle serving a single line consisting of a code fence. -/
def c2Fetch : String → Option String :=
  fun u => if u = c2Raw then some "```" else none

/-- The match for `c2Url` requesting line 1. -/
def c2Match : GitHubMatchResult := mkNormalMatch c2Url (some "L1")

/-- A small GitHub URL used for the clamping witness. -/
def c4Url : String := "https://github.com/u/r/blob/main/f.txt#L1-L1000000"

/-- The raw URL for `c4Url`. -/
def c4Raw : String := converterNormal c4Url

/-- A 50-line file body. -/
def c4Body : String := joinSep "
" (List.replicate 50 "x")

/-- Fetch oracle serving the 50-line file. -/
def c4Fetch : String → Option String :=
  fun u => if u = c4Raw then some c4Body else none

/-- The match for `c4Url` requesting lines 1 to 1000000. -/
def c4Match : GitHubMatchResult := mkNormalMatch c4Url (some "L1-L1000000")

/-- A 1990-character repeated path segment. -/
def longA : String := String.mk (List.replicate 1990 'a')

/-- A GitHub URL whose display path has 1991 characters. -/
def c6Url : String := "https://github.com/" ++ longA

/-- The raw URL for `c6Url`. -/
def c6Raw : String := converterNormal c6Url

/-- The display path of `c6Url`. -/
def c6Path : String := urlPathname c6Url

/-- Fetch oracle serving the two-line body `x`, `y`. -/
def c6Fetch : String → Option String :=
  fun u => if u = c6Raw then some "x
y" else none

/-- The match for `c6Url` requesting lines 1 to 2. -/
def c6Match : GitHubMatchResult := mkNormalMatch c6Url (some "L1-L2")

/-- A small GitHub URL for the files-shape witness. -/
def c10Url : String := "https://github.com/u/r/blob/main/c.md#L1"

/-- The raw URL for `c10Url`. -/
def c10Raw : String := converterNormal c10Url

/-- Fetch oracle serving a single line consisting of a code fence. -/
def c10Fetch : String → Option String :=
  fun u => if u = c10Raw then some "```fence" else none

/-- The match for `c10Url` requesting line 1. -/
def c10Match : GitHubMatchResult := mkNormalMatch c10Url (some "L1")

/-! ## Basic lemmas -/

theorem strData_append (s t : String) : (s ++ t).data = s.data ++ t.data := by
  cases s; cases t; rfl

theorem strLength_data (s : String) : s.length = s.data.length := rfl

theorem strExt {a b : String} (h : a.data = b.data) : a = b := by
  cases a; cases b; exact congrArg String.mk h

/-- `resolveGitHubResults` is the `filterMap` of the per-match body over
the input list. -/
theorem resolveGitHubResults_eq_filterMap (fetch : String → Option String)
    (ms : List GitHubMatchResult) :
    resolveGitHubResults fetch ms = ms.filterMap (resolveOne fetch) := by
  suffices h : ∀ (l : List GitHubMatchResult) (acc : List ResolvedGitHubResult),
      l.foldl (fun results m =>
        match resolveOne fetch m with
        | some r => results ++ [r]
        | none => results) acc = acc ++ l.filterMap (resolveOne fetch) by
    simpa [resolveGitHubResults] using h ms []
  intro l
  induction l with
  | nil => simp
  | cons m rest ih =>
    intro acc
    cases hr : resolveOne fetch m <;> simp [List.foldl, hr, ih]

/-- The fence-escape branch of the loop body (`handler.ts` lines
115-126). -/
theorem resolveOne_fence (fetch : String → Option String) (m : GitHubMatchResult)
    (rawUrl rawFile : String)
    (hc : m.converter m.url = some rawUrl)
    (hru : rawUrl.data.isEmpty = false)
    (hf : fetch rawUrl = some rawFile)
    (hbo : rawFile.data.isEmpty = false)
    (hfence : hasCodeBlockOf rawFile m.opts = true) :
    resolveOne fetch m = some ⟨headerOf rawFile m.opts (urlPathname m.url),
      [attachmentOf rawFile m.opts m.type (urlPathname m.url) (resolveFileLanguage rawUrl)]⟩ := by
  unfold resolveOne
  rw [hc]
  simp [hru, hf, hbo, hfence]

/-- The oversized-render fallback branch of the loop body (`handler.ts`
lines 144-153). -/
theorem resolveOne_overflow (fetch : String → Option String) (m : GitHubMatchResult)
    (rawUrl rawFile : String)
    (hc : m.converter m.url = some rawUrl)
    (hru : rawUrl.data.isEmpty = false)
    (hf : fetch rawUrl = some rawFile)
    (hbo : rawFile.data.isEmpty = false)
    (hnofence : hasCodeBlockOf rawFile m.opts = false)
    (hbig : 2000 ≤ (inlineContentOf rawFile m.opts (urlPathname m.url)
      (resolveFileLanguage rawUrl)).length) :
    resolveOne fetch m = some ⟨headerOf rawFile m.opts (urlPathname m.url),
      [attachmentOf rawFile m.opts m.type (urlPathname m.url) (resolveFileLanguage rawUrl)]⟩ := by
  unfold resolveOne
  rw [hc]
  simp [hru, hf, hbo, hnofence, hbig]

/-- The inline branch of the loop body (`handler.ts` lines 154-158). -/
theorem resolveOne_inline (fetch : String → Option String) (m : GitHubMatchResult)
    (rawUrl rawFile : String)
    (hc : m.converter m.url = some rawUrl)
    (hru : rawUrl.data.isEmpty = false)
    (hf : fetch rawUrl = some rawFile)
    (hbo : rawFile.data.isEmpty = false)
    (hnofence : hasCodeBlockOf rawFile m.opts = false)
    (hsmall : (inlineContentOf rawFile m.opts (urlPathname m.url)
      (resolveFileLanguage rawUrl)).length < 2000) :
    resolveOne fetch m = some ⟨inlineContentOf rawFile m.opts (urlPathname m.url)
      (resolveFileLanguage rawUrl), []⟩ := by
  unfold resolveOne
  rw [hc]
  simp [hru, hf, hbo, hnofence]
  omega

/-- Case analysis of a successful loop-body run: the result is either the
header-plus-attachment form (fence escape or oversized render) or the
inline form with content strictly below the 2000-character budget. -/
theorem resolveOne_shape (fetch : String → Option String) (m : GitHubMatchResult)
    (r : ResolvedGitHubResult) (h : resolveOne fetch m = some r) :
    ∃ rawUrl rawFile, m.converter m.url = some rawUrl ∧ fetch rawUrl = some rawFile ∧
      (r = ⟨headerOf rawFile m.opts (urlPathname m.url),
          [attachmentOf rawFile m.opts m.type (urlPathname m.url)
            (resolveFileLanguage rawUrl)]⟩ ∨
        (r = ⟨inlineContentOf rawFile m.opts (urlPathname m.url)
            (resolveFileLanguage rawUrl), []⟩ ∧
          (inlineContentOf rawFile m.opts (urlPathname m.url)
            (resolveFileLanguage rawUrl)).length < 2000)) := by
  unfold resolveOne at h
  cases hc : m.converter m.url with
  | none => rw [hc] at h; exact absurd h (by simp)
  | some rawUrl =>
    rw [hc] at h
    dsimp only at h
    by_cases hru : rawUrl.data.isEmpty = true
    · rw [if_pos hru] at h; exact absurd h (by simp)
    · rw [if_neg hru] at h
      cases hf : fetch rawUrl with
      | none => rw [hf] at h; exact absurd h (by simp)
      | some rawFile =>
        rw [hf] at h
        dsimp only at h
        by_cases hbo : rawFile.data.isEmpty = true
        · rw [if_pos hbo] at h; exact absurd h (by simp)
        · rw [if_neg hbo] at h
          refine ⟨rawUrl, rawFile, rfl, hf, ?_⟩
          by_cases hfence : hasCodeBlockOf rawFile m.opts = true
          · rw [if_pos hfence] at h
            exact Or.inl (Option.some.inj h).symm
          · rw [if_neg hfence] at h
            by_cases hbig : 2000 ≤ (inlineContentOf rawFile m.opts (urlPathname m.url)
              (resolveFileLanguage rawUrl)).length
            · rw [if_pos hbig] at h
              exact Or.inl (Option.some.inj h).symm
            · rw [if_neg hbig] at h
              exact Or.inr ⟨(Option.some.inj h).symm, by omega⟩

/-- A negative limit keeps no lines at all. -/
theorem truncateArray_neg (arr : List String) (limit : Int) (h : limit < 0) :
    truncateArray arr limit = [] := by
  cases arr with
  | nil => rfl
  | cons s rest =>
    unfold truncateArray truncArrGo
    rw [if_neg]
    intro hle
    have h0 : (0 : Int) ≤ (0 : Int) + (if true then (0 : Int) else 1) + s.data.length := by
      simp
    omega

/-- `takeWhile` keeps a replicated list whose element satisfies the
predicate. -/
theorem takeWhile_replicate_of_pos (p : Char → Bool) (c : Char) (h : p c = true) :
    ∀ n : Nat, (List.replicate n c).takeWhile p = List.replicate n c := by
  intro n
  induction n with
  | zero => rfl
  | succ k ih => simp [List.replicate_succ, List.takeWhile_cons, h, ih]

/-- Exact length of a generated header. -/
theorem generateHeader_length (s : Nat) (e : Int) (path : String) (ell : Bool) :
    (generateHeader s e path ell).length =
      path.length + 2 + (Nat.repr s).length + 2 + (Int.repr e).length +
        (if ell then 12 else 0) := by
  unfold generateHeader
  cases ell <;> simp [String.length_append] <;> rfl

/-- The header is at least four characters longer than the display
path. -/
theorem generateHeader_length_lb (s : Nat) (e : Int) (path : String) (ell : Bool) :
    path.length + 4 ≤ (generateHeader s e path ell).length := by
  rw [generateHeader_length]
  omega

/-- The inline content contains the regenerated header and a fenced code
block, so it is at least 13 characters longer than the display path. -/
theorem inlineContentOf_length_lb (rawFile : String) (opts : Option String)
    (path lang : String) :
    path.length + 13 ≤ (inlineContentOf rawFile opts path lang).length := by
  unfold inlineContentOf codeBlock
  have hgh := generateHeader_length_lb
    (safeStartOf opts (parsedLinesOf rawFile).length)
    (((safeLinesOf rawFile opts path lang).length : Int) +
      ((safeStartOf opts (parsedLinesOf rawFile).length : Nat) : Int) - 1)
    path
    ((safeLinesOf rawFile opts path lang).length != (linesRequestedOf rawFile opts).length)
  simp only [String.length_append]
  simp only [String.length] at *
  simp only [List.length_cons, List.length_nil]
  omega

/-- With a display path of at least 1897 characters the truncation limit
is negative, so no formatted line survives. -/
theorem safeLinesOf_nil_of_long_path (rawFile : String) (opts : Option String)
    (path lang : String) (h : 1897 ≤ path.length) :
    safeLinesOf rawFile opts path lang = [] := by
  unfold safeLinesOf
  apply truncateArray_neg
  have hh := generateHeader_length_lb (safeStartOf opts (parsedLinesOf rawFile).length)
    (safeEndOf opts (parsedLinesOf rawFile).length : Int) path false
  unfold headerOf SAFE_BOUNDARY
  omega

/-- The display path of a GitHub URL whose tail is a replicated
character that is neither `#` nor `?`. -/
theorem urlPathname_gh_replicate (n : Nat) (c : Char)
    (h : (c != '#' && c != '?') = true) :
    (urlPathname ("https://github.com/" ++ String.mk (List.replicate n c))).data
      = '/' :: List.replicate n c := by
  have h1 : ("https://github.com/" ++ String.mk (List.replicate n c)).data
      = "https://github.com/".data ++ List.replicate n c :=
    strData_append _ _
  unfold urlPathname
  rw [h1]
  have h2 : splitFirstL "://".data ("https://github.com/".data ++ List.replicate n c)
      = some (['h', 't', 't', 'p', 's'], "github.com/".data ++ List.replicate n c) := rfl
  rw [h2]
  dsimp only
  have h3 : List.dropWhile (fun ch => ch != '/') ("github.com/".data ++ List.replicate n c)
      = '/' :: List.replicate n c := rfl
  rw [h3]
  have h4 : List.takeWhile (fun ch => ch != '#' && ch != '?') ('/' :: List.replicate n c)
      = '/' :: List.takeWhile (fun ch => ch != '#' && ch != '?') (List.replicate n c) := rfl
  rw [h4, takeWhile_replicate_of_pos _ _ h]
  rfl

/-! ## Claim theorems -/

/-- Claim C9: `resolveGitHubResults` processes matches independently and
in input order: it is the `filterMap` of the per-match resolution over
the input list, so it emits at most one result per match (and exactly the
successfully resolved ones), preserves the relative input order, and
drops failed matches without affecting the others (resolving a
concatenation resolves the parts independently). -/
theorem resolveGitHubResults_order_and_arity (fetch : String → Option String)
    (ms ms2 : List GitHubMatchResult) :
    resolveGitHubResults fetch ms = ms.filterMap (resolveOne fetch) ∧
    (resolveGitHubResults fetch ms).length ≤ ms.length ∧
    resolveGitHubResults fetch (ms ++ ms2)
      = resolveGitHubResults fetch ms ++ resolveGitHubResults fetch ms2 := by
  refine ⟨resolveGitHubResults_eq_filterMap fetch ms, ?_, ?_⟩
  · rw [resolveGitHubResults_eq_filterMap]
    exact List.length_filterMap_le _ _
  · rw [resolveGitHubResults_eq_filterMap, resolveGitHubResults_eq_filterMap,
      resolveGitHubResults_eq_filterMap, List.filterMap_append]

/-- Claim C1 (amended): every result emitted by `resolveGitHubResults`
either has content strictly shorter than 2000 characters (the inline
branch is taken only when the assembled header-plus-code-block string is
strictly shorter than 2000) or its content is the header alone together
with exactly one attachment; the header itself is not bounded by 2000
characters, so the unconditional 2000-character bound of the claim fails
for long display paths. -/
theorem resolvedContent_bound (fetch : String → Option String)
    (ms : List GitHubMatchResult) (r : ResolvedGitHubResult)
    (h : r ∈ resolveGitHubResults fetch ms) :
    r.content.length < 2000 ∨
      (∃ s e p, r.content = generateHeader s e p false ∧ r.files.length = 1) := by
  rw [resolveGitHubResults_eq_filterMap] at h
  obtain ⟨m, _, hm⟩ := List.mem_filterMap.mp h
  obtain ⟨rawUrl, rawFile, _, _, hshape⟩ := resolveOne_shape fetch m r hm
  cases hshape with
  | inl hhead =>
    refine Or.inr ⟨safeStartOf m.opts (parsedLinesOf rawFile).length,
      (safeEndOf m.opts (parsedLinesOf rawFile).length : Int), urlPathname m.url, ?_, ?_⟩
    · rw [hhead]; rfl
    · rw [hhead]; rfl
  | inr hinline =>
    left
    rw [hinline.1]
    exact hinline.2

/-- Witness for claim C1: a concrete inline-rendered result of the small
fixture satisfies the bound. -/
theorem resolvedContent_bound_witness :
    (⟨"/u/r/blob/main/b.go L1-L3\n```go\n1 a\n2 b\n3 c\n```", []⟩ : ResolvedGitHubResult)
        ∈ resolveGitHubResults c1wFetch [c1wMatch] ∧
      ((⟨"/u/r/blob/main/b.go L1-L3\n```go\n1 a\n2 b\n3 c\n```", []⟩ :
            ResolvedGitHubResult).content.length < 2000 ∨
        (∃ s e p,
          (⟨"/u/r/blob/main/b.go L1-L3\n```go\n1 a\n2 b\n3 c\n```", []⟩ :
              ResolvedGitHubResult).content = generateHeader s e p false ∧
          (⟨"/u/r/blob/main/b.go L1-L3\n```go\n1 a\n2 b\n3 c\n```", []⟩ :
              ResolvedGitHubResult).files.length = 1)) :=
  ⟨by decide, resolvedContent_bound c1wFetch [c1wMatch] _ (by decide)⟩

/-- The header is the `generateHeader` of the clamped range with the
ellipsis marker off. -/
theorem headerOf_eq (rawFile : String) (opts : Option String) (path : String) :
    headerOf rawFile opts path
      = generateHeader (safeStartOf opts (parsedLinesOf rawFile).length)
          ((safeEndOf opts (parsedLinesOf rawFile).length : Nat) : Int) path false := rfl

/-- The header is at least four characters longer than the display
path. -/
theorem headerOf_length_lb (rawFile : String) (opts : Option String) (path : String) :
    path.length + 4 ≤ (headerOf rawFile opts path).length := by
  rw [headerOf_eq]
  exact generateHeader_length_lb _ _ _ _

/-- Counterexample for claim C1 as stated: for the match on a GitHub URL
with a 2100-character path segment whose fetched file contains a code
fence, the emitted content is the header alone and exceeds 2000
characters (the attachment holds the raw slice). -/
theorem resolvedContent_bound_counterexample :
    resolveGitHubResults c1xFetch [c1xMatch]
        = [⟨headerOf "```" none c1xPath,
            [attachmentOf "```" none GitHubUrlType.Normal c1xPath
              (resolveFileLanguage c1xRaw)]⟩] ∧
      (attachmentOf "```" none GitHubUrlType.Normal c1xPath
        (resolveFileLanguage c1xRaw)).attachment = "```" ∧
      2000 < (headerOf "```" none c1xPath).length := by
  have hpath : c1xPath.data = '/' :: List.replicate 2100 'b' := by
    unfold c1xPath c1xUrl longB
    exact urlPathname_gh_replicate 2100 'b' (by decide)
  have hplen : c1xPath.length = 2101 := by
    rw [strLength_data, hpath, List.length_cons, List.length_replicate]
  refine ⟨?_, by decide, ?_⟩
  · have h1 : resolveOne c1xFetch c1xMatch
        = some ⟨headerOf "```" none c1xPath,
            [attachmentOf "```" none GitHubUrlType.Normal c1xPath
              (resolveFileLanguage c1xRaw)]⟩ := by
      refine resolveOne_fence c1xFetch c1xMatch c1xRaw "```" rfl (by decide) ?_ (by decide)
        (by decide)
      unfold c1xFetch
      exact if_pos rfl
    rw [resolveGitHubResults_eq_filterMap, List.filterMap_cons, h1]
    rfl
  · have hlb := headerOf_length_lb "```" none c1xPath
    omega

/-- Claim C2: whenever the fetched file's sliced lines contain a triple
backtick in some line, the emitted result for that match is exactly the
header together with a single attachment holding the untruncated sliced
lines joined with newlines, regardless of the slice's size; within a
result list the match contributes exactly this one entry. -/
theorem fence_escape_attachment (fetch : String → Option String) (m : GitHubMatchResult)
    (rawUrl rawFile : String)
    (hc : m.converter m.url = some rawUrl)
    (hru : rawUrl.data.isEmpty = false)
    (hf : fetch rawUrl = some rawFile)
    (hbo : rawFile.data.isEmpty = false)
    (hfence : hasCodeBlockOf rawFile m.opts = true) :
    resolveOne fetch m = some ⟨headerOf rawFile m.opts (urlPathname m.url),
        [⟨joinSep "\n" (linesRequestedOf rawFile m.opts),
          attachName m.type (urlPathname m.url) (resolveFileLanguage rawUrl)⟩]⟩ ∧
      ∀ ms1 ms2 : List GitHubMatchResult,
        resolveGitHubResults fetch (ms1 ++ m :: ms2)
          = resolveGitHubResults fetch ms1
              ++ ⟨headerOf rawFile m.opts (urlPathname m.url),
                  [⟨joinSep "\n" (linesRequestedOf rawFile m.opts),
                    attachName m.type (urlPathname m.url) (resolveFileLanguage rawUrl)⟩]⟩
                :: resolveGitHubResults fetch ms2 := by
  have h := resolveOne_fence fetch m rawUrl rawFile hc hru hf hbo hfence
  refine ⟨h, ?_⟩
  intro ms1 ms2
  rw [resolveGitHubResults_eq_filterMap, List.filterMap_append, List.filterMap_cons, h,
    resolveGitHubResults_eq_filterMap, resolveGitHubResults_eq_filterMap]
  rfl

/-- Witness for claim C2 at the small fence fixture. -/
theorem fence_escape_attachment_witness :
    c2Match.converter c2Match.url = some c2Raw ∧
      c2Fetch c2Raw = some "```" ∧
      hasCodeBlockOf "```" c2Match.opts = true ∧
      resolveOne c2Fetch c2Match = some ⟨headerOf "```" c2Match.opts (urlPathname c2Match.url),
        [⟨joinSep "\n" (linesRequestedOf "```" c2Match.opts),
          attachName c2Match.type (urlPathname c2Match.url) (resolveFileLanguage c2Raw)⟩]⟩ :=
  ⟨rfl, by decide, by decide,
    (fence_escape_attachment c2Fetch c2Match c2Raw "```" rfl (by decide) (by decide)
      (by decide) (by decide)).1⟩

/-- Claim C10: every emitted result has zero or one attachment, and the
shape is anchored to the match that produced the result: a single
attachment holds that match's untruncated sliced lines (of the body its
converter's URL fetched) joined with newlines, and an attachment-free
result's content ends with a fenced code block whose body is the literal
placeholder whenever no formatted line of that match survives
truncation. -/
theorem result_files_shape (fetch : String → Option String)
    (ms : List GitHubMatchResult) (r : ResolvedGitHubResult)
    (h : r ∈ resolveGitHubResults fetch ms) :
    r.files.length ≤ 1 ∧
      ∃ m ∈ ms, ∃ rawUrl rawFile,
        m.converter m.url = some rawUrl ∧ fetch rawUrl = some rawFile ∧
          (r.files = [⟨joinSep "\n" (linesRequestedOf rawFile m.opts),
              attachName m.type (urlPathname m.url) (resolveFileLanguage rawUrl)⟩] ∨
            (r.files = [] ∧
              r.content = inlineContentOf rawFile m.opts (urlPathname m.url)
                (resolveFileLanguage rawUrl) ∧
              ∃ hd, r.content = hd ++ "\n" ++ codeBlock (resolveFileLanguage rawUrl)
                (if (joinSep "\n" (safeLinesOf rawFile m.opts (urlPathname m.url)
                      (resolveFileLanguage rawUrl))).data.isEmpty
                  then "Couldn\x27t find any lines"
                  else joinSep "\n" (safeLinesOf rawFile m.opts (urlPathname m.url)
                    (resolveFileLanguage rawUrl))))) := by
  rw [resolveGitHubResults_eq_filterMap] at h
  obtain ⟨m, hmem, hm⟩ := List.mem_filterMap.mp h
  obtain ⟨rawUrl, rawFile, hc, hf, hshape⟩ := resolveOne_shape fetch m r hm
  cases hshape with
  | inl hhead =>
    constructor
    · rw [hhead]
      exact Nat.le.refl
    · exact ⟨m, hmem, rawUrl, rawFile, hc, hf, Or.inl (by rw [hhead]; rfl)⟩
  | inr hinline =>
    constructor
    · rw [hinline.1]
      exact Nat.zero_le 1
    · refine ⟨m, hmem, rawUrl, rawFile, hc, hf, Or.inr ⟨by rw [hinline.1], by rw [hinline.1],
        generateHeader (safeStartOf m.opts (parsedLinesOf rawFile).length)
          (((safeLinesOf rawFile m.opts (urlPathname m.url)
              (resolveFileLanguage rawUrl)).length : Int)
            + ((safeStartOf m.opts (parsedLinesOf rawFile).length : Nat) : Int) - 1)
          (urlPathname m.url)
          ((safeLinesOf rawFile m.opts (urlPathname m.url)
              (resolveFileLanguage rawUrl)).length
            != (linesRequestedOf rawFile m.opts).length), ?_⟩⟩
      rw [hinline.1]
      rfl

/-- Witness for claim C10 at the small fence fixture: the emitted
result's single attachment holds exactly the fixture match's sliced
line. -/
theorem result_files_shape_witness :
    (⟨"/u/r/blob/main/c.md L1-L1", [⟨"```fence", "/u/r/blob/main/c.md"⟩]⟩ :
          ResolvedGitHubResult)
        ∈ resolveGitHubResults c10Fetch [c10Match] ∧
      ((⟨"/u/r/blob/main/c.md L1-L1", [⟨"```fence", "/u/r/blob/main/c.md"⟩]⟩ :
          ResolvedGitHubResult).files.length ≤ 1 ∧
        ∃ m ∈ [c10Match], ∃ rawUrl rawFile,
          m.converter m.url = some rawUrl ∧ c10Fetch rawUrl = some rawFile ∧
            ((⟨"/u/r/blob/main/c.md L1-L1", [⟨"```fence", "/u/r/blob/main/c.md"⟩]⟩ :
                ResolvedGitHubResult).files
                = [⟨joinSep "\n" (linesRequestedOf rawFile m.opts),
                    attachName m.type (urlPathname m.url) (resolveFileLanguage rawUrl)⟩] ∨
              ((⟨"/u/r/blob/main/c.md L1-L1", [⟨"```fence", "/u/r/blob/main/c.md"⟩]⟩ :
                  ResolvedGitHubResult).files = [] ∧
                (⟨"/u/r/blob/main/c.md L1-L1", [⟨"```fence", "/u/r/blob/main/c.md"⟩]⟩ :
                    ResolvedGitHubResult).content
                  = inlineContentOf rawFile m.opts (urlPathname m.url)
                      (resolveFileLanguage rawUrl) ∧
                ∃ hd,
                  (⟨"/u/r/blob/main/c.md L1-L1", [⟨"```fence", "/u/r/blob/main/c.md"⟩]⟩ :
                      ResolvedGitHubResult).content
                    = hd ++ "\n" ++ codeBlock (resolveFileLanguage rawUrl)
                        (if (joinSep "\n" (safeLinesOf rawFile m.opts (urlPathname m.url)
                              (resolveFileLanguage rawUrl))).data.isEmpty
                          then "Couldn\x27t find any lines"
                          else joinSep "\n" (safeLinesOf rawFile m.opts (urlPathname m.url)
                            (resolveFileLanguage rawUrl)))))) :=
  ⟨by decide, result_files_shape c10Fetch [c10Match] _ (by decide)⟩

/-- Two generated headers over the same path agree on their range tails
when they are equal. -/
theorem generateHeader_injective_tail (p : String) (s s' : Nat) (e e' : Int) (b b' : Bool)
    (heq : generateHeader s e p b = generateHeader s' e' p b') :
    " L".data ++ ((Nat.repr s).data ++ ("-L".data ++ ((Int.repr e).data
        ++ (if b then " (truncated)" else "").data)))
      = " L".data ++ ((Nat.repr s').data ++ ("-L".data ++ ((Int.repr e').data
        ++ (if b' then " (truncated)" else "").data))) := by
  have hd := congrArg String.data heq
  unfold generateHeader at hd
  cases b <;> cases b' <;>
    simp only [if_true, if_false, Bool.false_eq_true, strData_append, List.append_assoc] at hd ⊢ <;>
    exact List.append_cancel_left hd

/-- Claim C6 (amended): a match without a fence line whose assembled
inline content reaches 2000 characters falls back to attachment mode with
the full raw slice, and the emitted header is the pre-truncation header,
showing the requested clamped end line (the header regenerated with the
truncated rendered line count exists only inside the discarded inline
attempt). -/
theorem overflow_attachment_fallback (fetch : String → Option String)
    (m : GitHubMatchResult) (rawUrl rawFile : String)
    (hc : m.converter m.url = some rawUrl)
    (hru : rawUrl.data.isEmpty = false)
    (hf : fetch rawUrl = some rawFile)
    (hbo : rawFile.data.isEmpty = false)
    (hnofence : hasCodeBlockOf rawFile m.opts = false)
    (hbig : 2000 ≤ (inlineContentOf rawFile m.opts (urlPathname m.url)
      (resolveFileLanguage rawUrl)).length) :
    resolveOne fetch m = some ⟨headerOf rawFile m.opts (urlPathname m.url),
        [⟨joinSep "\n" (linesRequestedOf rawFile m.opts),
          attachName m.type (urlPathname m.url) (resolveFileLanguage rawUrl)⟩]⟩ ∧
      headerOf rawFile m.opts (urlPathname m.url)
        = generateHeader (safeStartOf m.opts (parsedLinesOf rawFile).length)
            ((safeEndOf m.opts (parsedLinesOf rawFile).length : Nat) : Int)
            (urlPathname m.url) false :=
  ⟨resolveOne_overflow fetch m rawUrl rawFile hc hru hf hbo hnofence hbig,
    headerOf_eq rawFile m.opts (urlPathname m.url)⟩

/-- The inline content of the two-line fixture over the 1991-character
path reaches the 2000-character budget. -/
theorem c6_inline_big :
    2000 ≤ (inlineContentOf "x\ny" (some "L1-L2") c6Path
      (resolveFileLanguage c6Raw)).length := by
  have hpath : c6Path.data = '/' :: List.replicate 1990 'a' := by
    unfold c6Path c6Url longA
    exact urlPathname_gh_replicate 1990 'a' (by decide)
  have hplen : c6Path.length = 1991 := by
    rw [strLength_data, hpath, List.length_cons, List.length_replicate]
  have hlb := inlineContentOf_length_lb "x\ny" (some "L1-L2") c6Path
    (resolveFileLanguage c6Raw)
  omega

/-- Witness for claim C6 at the long-path fixture. -/
theorem overflow_attachment_fallback_witness :
    hasCodeBlockOf "x\ny" c6Match.opts = false ∧
      2000 ≤ (inlineContentOf "x\ny" c6Match.opts (urlPathname c6Match.url)
        (resolveFileLanguage c6Raw)).length ∧
      resolveOne c6Fetch c6Match = some ⟨headerOf "x\ny" c6Match.opts (urlPathname c6Match.url),
        [⟨joinSep "\n" (linesRequestedOf "x\ny" c6Match.opts),
          attachName c6Match.type (urlPathname c6Match.url) (resolveFileLanguage c6Raw)⟩]⟩ :=
  ⟨by decide, c6_inline_big,
    (overflow_attachment_fallback c6Fetch c6Match c6Raw "x\ny" rfl (by decide)
      (by unfold c6Fetch; exact if_pos rfl) (by decide) (by decide) c6_inline_big).1⟩

/-- Counterexample for claim C6 as stated: at the long-path fixture the
render overflows and falls back to attachment mode, but the emitted
header is the original header showing the requested clamped end line 2,
while the truncated rendered line count is 0 (no formatted line
survives); a header showing 0 differs from the emitted one. -/
theorem overflow_header_counterexample :
    resolveGitHubResults c6Fetch [c6Match]
        = [⟨headerOf "x\ny" (some "L1-L2") c6Path,
            [attachmentOf "x\ny" (some "L1-L2") GitHubUrlType.Normal c6Path
              (resolveFileLanguage c6Raw)]⟩] ∧
      headerOf "x\ny" (some "L1-L2") c6Path = generateHeader 1 2 c6Path false ∧
      safeLinesOf "x\ny" (some "L1-L2") c6Path (resolveFileLanguage c6Raw) = [] ∧
      linesRequestedOf "x\ny" (some "L1-L2") = ["x", "y"] ∧
      generateHeader 1 2 c6Path false ≠ generateHeader 1 0 c6Path true ∧
      generateHeader 1 2 c6Path false ≠ generateHeader 1 0 c6Path false := by
  have hpath : c6Path.data = '/' :: List.replicate 1990 'a' := by
    unfold c6Path c6Url longA
    exact urlPathname_gh_replicate 1990 'a' (by decide)
  have hplen : c6Path.length = 1991 := by
    rw [strLength_data, hpath, List.length_cons, List.length_replicate]
  refine ⟨?_, ?_, ?_, by decide, ?_, ?_⟩
  · have h1 : resolveOne c6Fetch c6Match
        = some ⟨headerOf "x\ny" (some "L1-L2") c6Path,
            [attachmentOf "x\ny" (some "L1-L2") GitHubUrlType.Normal c6Path
              (resolveFileLanguage c6Raw)]⟩ := by
      refine resolveOne_overflow c6Fetch c6Match c6Raw "x\ny" rfl (by decide) ?_ (by decide)
        (by decide) c6_inline_big
      unfold c6Fetch
      exact if_pos rfl
    rw [resolveGitHubResults_eq_filterMap, List.filterMap_cons, h1]
    rfl
  · rw [headerOf_eq,
      show safeStartOf (some "L1-L2") (parsedLinesOf "x\ny").length = 1 from by decide,
      show safeEndOf (some "L1-L2") (parsedLinesOf "x\ny").length = 2 from by decide]
    norm_num
  · exact safeLinesOf_nil_of_long_path "x\ny" (some "L1-L2") c6Path
      (resolveFileLanguage c6Raw) (by omega)
  · intro heq
    have ht := generateHeader_injective_tail c6Path 1 1 2 0 false true heq
    exact absurd ht (by decide)
  · intro heq
    have ht := generateHeader_injective_tail c6Path 1 1 2 0 false false heq
    exact absurd ht (by decide)

/-- Claim C4: the effective start and end lines are clamped to the
fetched file's line count, so they never exceed it; a successfully
converted and fetched match is never dropped whatever the requested
range, and requesting lines 1 to 1000000 of a 50-line file slices
exactly all 50 lines. -/
theorem line_clamp_safety (fetch : String → Option String) (m : GitHubMatchResult)
    (rawUrl rawFile : String)
    (hc : m.converter m.url = some rawUrl)
    (hru : rawUrl.data.isEmpty = false)
    (hf : fetch rawUrl = some rawFile)
    (hbo : rawFile.data.isEmpty = false) :
    (∀ (opts : Option String) (n : Nat), safeStartOf opts n ≤ n ∧ safeEndOf opts n ≤ n) ∧
      (resolveOne fetch m).isSome = true ∧
      resolveLines (some "L1-L1000000") = ⟨1, some 1000000⟩ ∧
      safeStartOf (some "L1-L1000000") 50 = 1 ∧
      safeEndOf (some "L1-L1000000") 50 = 50 ∧
      jsSlice (List.replicate 50 "x") ((1 : Int) - 1) (50 : Int) = List.replicate 50 "x" := by
  refine ⟨fun opts n => ⟨Nat.min_le_right _ _, Nat.min_le_right _ _⟩, ?_, by decide,
    by decide, by decide, by decide⟩
  unfold resolveOne
  rw [hc]
  simp only [hru, Bool.false_eq_true, if_false, hf]
  simp only [hbo, Bool.false_eq_true, if_false]
  by_cases hfe : hasCodeBlockOf rawFile m.opts = true
  · rw [if_pos hfe]
    rfl
  · rw [if_neg hfe]
    by_cases hbig : 2000 ≤ (inlineContentOf rawFile m.opts (urlPathname m.url)
      (resolveFileLanguage rawUrl)).length
    · rw [if_pos hbig]
      rfl
    · rw [if_neg hbig]
      rfl

/-- Witness for claim C4 at the 50-line fixture. -/
theorem line_clamp_safety_witness :
    c4Match.converter c4Match.url = some c4Raw ∧
      c4Fetch c4Raw = some c4Body ∧
      (resolveOne c4Fetch c4Match).isSome = true :=
  ⟨rfl, by decide,
    (line_clamp_safety c4Fetch c4Match c4Raw c4Body rfl (by decide) (by decide)
      (by decide)).2.1⟩

/-- Claim C5: when `endLine` is absent the handler's effective end line
equals the effective start line (a single-line request); in the variant
handler's clamp, a zero (absent) `startLine` makes the slice cover the
whole file, effective range 1 through the file's line count, while a
non-zero `startLine` gives the clamped single-line range. -/
theorem end_line_defaulting (n : Nat) (hn : 1 ≤ n) :
    (∀ opts, (resolveLines opts).endLine = none → safeEndOf opts n = safeStartOf opts n) ∧
      (∀ s : Nat, s ≠ 0 →
        safeStartLineMeta s n = min s n ∧ safeEndLineMeta s none n = min s n) ∧
      safeStartLineMeta 0 n = 1 ∧
      safeEndLineMeta 0 none n = n ∧
      (∀ (l : List String), jsSlice l ((1 : Int) - 1) (l.length : Int) = l) := by
  refine ⟨?_, ?_, ?_, ?_, ?_⟩
  · intro opts h
    unfold safeEndOf safeStartOf
    rw [h]
    rfl
  · intro s hs
    constructor
    · unfold safeStartLineMeta jsOrNat
      rw [if_neg hs]
    · unfold safeEndLineMeta jsOr jsOrNat
      rw [if_neg hs]
  · unfold safeStartLineMeta jsOrNat
    rw [if_pos rfl]
    exact Nat.min_eq_left hn
  · unfold safeEndLineMeta jsOr jsOrNat
    rw [if_pos rfl]
    exact Nat.min_self n
  · intro l
    unfold jsSlice
    have h1 : ((1 : Int) - 1) = 0 := by norm_num
    rw [h1]
    simp only [show ¬ ((0 : Int) < 0) from by norm_num, if_false]
    have h2 : ¬ ((l.length : Int) < 0) := by
      have := Int.natCast_nonneg l.length
      omega
    rw [if_neg h2]
    have h3 : min (0 : Int) (l.length : Int) = 0 := by
      have := Int.natCast_nonneg l.length
      omega
    have h4 : min ((l.length : Int)) ((l.length : Int)) = (l.length : Int) := min_self _
    rw [h3, h4]
    simp [Int.toNat_natCast]

/-- Witness for claim C5 at a ten-line file. -/
theorem end_line_defaulting_witness :
    (1 : Nat) ≤ 10 ∧
      (resolveLines (some "L7")).endLine = none ∧
      safeEndOf (some "L7") 10 = safeStartOf (some "L7") 10 ∧
      safeStartLineMeta 5 10 = min 5 10 ∧
      safeEndLineMeta 5 none 10 = min 5 10 ∧
      safeStartLineMeta 0 10 = 1 ∧
      safeEndLineMeta 0 none 10 = 10 ∧
      jsSlice ["a", "b", "c"] ((1 : Int) - 1) ((["a", "b", "c"] : List String).length : Int)
        = ["a", "b", "c"] :=
  ⟨by decide, by decide,
    (end_line_defaulting 10 (by decide)).1 (some "L7") (by decide),
    ((end_line_defaulting 10 (by decide)).2.1 5 (by decide)).1,
    ((end_line_defaulting 10 (by decide)).2.1 5 (by decide)).2,
    (end_line_defaulting 10 (by decide)).2.2.1,
    (end_line_defaulting 10 (by decide)).2.2.2.1,
    (end_line_defaulting 10 (by decide)).2.2.2.2 ["a", "b", "c"]⟩

set_option maxRecDepth 4000 in
/-- Claim C3 (code bug): the source wraps `text.matchAll(URL_REGEX)` in
`new Set(...)`, but the set elements are the per-occurrence match-array
objects, which are never equal to each other, so identical URL strings
are not deduplicated: a text containing the same URL twice yields two
matches for that URL string, where the claim (and the intent of the
`Set`) demands exactly one. -/
theorem duplicate_urls_not_deduplicated :
    (matchGitHubUrls
        "https://github.com/u/r/blob/main/f.go#L2 https://github.com/u/r/blob/main/f.go#L2").map
        (fun m => m.url)
      = ["https://github.com/u/r/blob/main/f.go#L2",
         "https://github.com/u/r/blob/main/f.go#L2"] := by decide

/-- A list is a prefix of itself followed by anything. -/
theorem isPrefixOf_append_self (p t : List Char) : p.isPrefixOf (p ++ t) = true := by
  induction p with
  | nil => simp [List.isPrefixOf]
  | cons c cs ih => simp [List.isPrefixOf, ih]

/-- A replace with a pattern that does not occur returns the input
unchanged. -/
theorem replaceFirstL_of_not_includes (pat rep : List Char) :
    ∀ l, listIncludes pat l = false → replaceFirstL pat rep l = l := by
  intro l
  induction l with
  | nil => intro _; rfl
  | cons c rest ih =>
    intro h
    unfold listIncludes at h
    rw [Bool.or_eq_false_iff] at h
    unfold replaceFirstL
    rw [if_neg (by simp [h.1]), ih h.2]

/-- A replace whose pattern first occurs right after a prefix `a` keeps
`a`, substitutes the occurrence, and keeps the tail. -/
theorem replaceFirstL_append (pat rep : List Char) (hp : pat ≠ []) :
    ∀ (a b : List Char), pat.isPrefixOf b = true →
      (∀ i, i < a.length → pat.isPrefixOf ((a ++ b).drop i) = false) →
      replaceFirstL pat rep (a ++ b) = a ++ (rep ++ b.drop pat.length) := by
  intro a
  induction a with
  | nil =>
    intro b hb _
    cases b with
    | nil =>
      cases pat with
      | nil => exact absurd rfl hp
      | cons x xs => simp [List.isPrefixOf] at hb
    | cons c cs =>
      simp only [List.nil_append]
      unfold replaceFirstL
      rw [if_pos hb]
  | cons c a' ih =>
    intro b hb hpre
    have h0 : pat.isPrefixOf (c :: (a' ++ b)) = false := by
      have h := hpre 0 (by simp)
      simpa using h
    simp only [List.cons_append]
    unfold replaceFirstL
    rw [if_neg (by simp [h0]), ih b hb ?_]
    intro i hi
    have h := hpre (i + 1) (by simpa using Nat.succ_lt_succ hi)
    simpa using h

/-- A `find?` over a list on which the predicate is everywhere false
yields nothing. -/
theorem find?_eq_none_of_all_false {α : Type} (p : α → Bool) :
    ∀ l : List α, (∀ x ∈ l, p x = false) → l.find? p = none := by
  intro l
  induction l with
  | nil => intro _; rfl
  | cons a rest ih =>
    intro h
    rw [List.find?_cons_of_neg, ih]
    · intro x hx
      exact h x (List.mem_cons_of_mem a hx)
    · simp [h a (List.mem_cons_self a rest)]

/-- The alternation replace whose first pattern occurrence starts right
after a prefix `a` keeps `a`, substitutes the matched pattern, and keeps
the tail. -/
theorem replaceFirstAltL_append (pats : List (List Char)) (rep : List Char)
    (hne : ∀ p ∈ pats, p ≠ []) :
    ∀ (a b : List Char) (p0 : List Char),
      pats.find? (fun p => p.isPrefixOf b) = some p0 →
      (∀ i, i < a.length → ∀ p ∈ pats, p.isPrefixOf ((a ++ b).drop i) = false) →
      replaceFirstAltL pats rep (a ++ b) = a ++ (rep ++ b.drop p0.length) := by
  intro a
  induction a with
  | nil =>
    intro b p0 hfind _
    cases b with
    | nil =>
      exfalso
      have hp0 := List.find?_some hfind
      have hmem := List.mem_of_find?_eq_some hfind
      have hne0 := hne p0 hmem
      cases p0 with
      | nil => exact hne0 rfl
      | cons x xs => simp [List.isPrefixOf] at hp0
    | cons c cs =>
      simp only [List.nil_append]
      unfold replaceFirstAltL
      rw [hfind]
  | cons c a' ih =>
    intro b p0 hfind hpre
    have h0 : pats.find? (fun p => p.isPrefixOf (c :: (a' ++ b))) = none := by
      apply find?_eq_none_of_all_false
      intro p hmem
      have h := hpre 0 (by simp) p hmem
      simpa using h
    simp only [List.cons_append]
    unfold replaceFirstAltL
    rw [h0, ih b p0 hfind ?_]
    intro i hi p hmem
    have h := hpre (i + 1) (by simpa using Nat.succ_lt_succ hi) p hmem
    simpa using h

/-- The first occurrence of `github.com` in `https://github.com...` is
the host: no occurrence starts inside the scheme part. -/
theorem no_early_github (t : List Char) :
    ∀ i, i < ("https://".data).length →
      ("github.com".data).isPrefixOf (("https://".data ++ t).drop i) = false := by
  intro i hi
  have h8 : ("https://".data).length = 8 := rfl
  rw [h8] at hi
  interval_cases i <;> rfl

/-- Rewriting the host of a URL that starts with `https://github.com`. -/
theorem replaceFirst_github (t : List Char) :
    replaceFirstL "github.com".data "raw.githubusercontent.com".data
        ("https://".data ++ ("github.com".data ++ t))
      = "https://".data ++ ("raw.githubusercontent.com".data ++ t) := by
  have h := replaceFirstL_append "github.com".data "raw.githubusercontent.com".data (by decide)
    "https://".data ("github.com".data ++ t) (isPrefixOf_append_self _ _)
    (no_early_github ("github.com".data ++ t))
  rw [h, List.drop_left]

/-- Claim C7: for a `Normal`-shaped URL with a `/blob/` path segment (the
segment being the first `/blob` or `/blame` occurrence after the host is
rewritten), the converter rewrites the host from `github.com` to
`raw.githubusercontent.com` and removes the `/blob` segment; on the
example URL the raw URL keeps the fragment, its path component is
`/u/r/main/f.go`, and the matcher extracts `opts = "L5-L10"`. -/
theorem normal_converter_rewrites (u r rest : String)
    (hgt : strIncludes ("https://github.com/" ++ u ++ "/" ++ r ++ "/blob/" ++ rest) ">" = false)
    (hpre : ∀ i, i < ("https://raw.githubusercontent.com/" ++ u ++ "/" ++ r).length →
        ∀ p ∈ (["/blob".data, "/blame".data] : List (List Char)),
          p.isPrefixOf
              ((("https://raw.githubusercontent.com/" ++ u ++ "/" ++ r ++ "/blob/"
                ++ rest).data).drop i)
            = false) :
    converterNormal ("https://github.com/" ++ u ++ "/" ++ r ++ "/blob/" ++ rest)
        = "https://raw.githubusercontent.com/" ++ u ++ "/" ++ r ++ "/" ++ rest ∧
      (matchGitHubUrls "https://github.com/u/r/blob/main/f.go#L5-L10").map
          (fun m => (m.url, m.opts, m.type))
        = [("https://github.com/u/r/blob/main/f.go#L5-L10", some "L5-L10",
            GitHubUrlType.Normal)] ∧
      converterNormal "https://github.com/u/r/blob/main/f.go#L5-L10"
        = "https://raw.githubusercontent.com/u/r/main/f.go#L5-L10" ∧
      urlPathname "https://raw.githubusercontent.com/u/r/main/f.go#L5-L10" = "/u/r/main/f.go" := by
  refine ⟨?_, by decide, by decide, by decide⟩
  apply strExt
  have hd1 : ("https://github.com/" ++ u ++ "/" ++ r ++ "/blob/" ++ rest).data
      = "https://".data ++ ("github.com".data
          ++ ("/".data ++ (u.data ++ ("/".data ++ (r.data ++ ("/blob/".data ++ rest.data)))))) := by
    simp only [strData_append, List.append_assoc, List.cons_append, List.nil_append]
  have hstep1 : replaceFirstL ['>'] [] ("https://github.com/" ++ u ++ "/" ++ r
        ++ "/blob/" ++ rest).data
      = ("https://github.com/" ++ u ++ "/" ++ r ++ "/blob/" ++ rest).data :=
    replaceFirstL_of_not_includes _ _ _ hgt
  have hA : "https://".data ++ ("raw.githubusercontent.com".data
        ++ ("/".data ++ (u.data ++ ("/".data ++ (r.data ++ ("/blob/".data ++ rest.data))))))
      = ("https://raw.githubusercontent.com/" ++ u ++ "/" ++ r).data
          ++ ("/blob".data ++ ("/".data ++ rest.data)) := by
    simp only [strData_append, List.append_assoc, List.cons_append, List.nil_append]
  have hFull : ("https://raw.githubusercontent.com/" ++ u ++ "/" ++ r ++ "/blob/"
        ++ rest).data
      = ("https://raw.githubusercontent.com/" ++ u ++ "/" ++ r).data
          ++ ("/blob".data ++ ("/".data ++ rest.data)) := by
    simp only [strData_append, List.append_assoc, List.cons_append, List.nil_append]
  show replaceFirstAltL ["/blob".data, "/blame".data] []
      (replaceFirstL "github.com".data "raw.githubusercontent.com".data
        (replaceFirstL ['>'] [] ("https://github.com/" ++ u ++ "/" ++ r
          ++ "/blob/" ++ rest).data))
    = ("https://raw.githubusercontent.com/" ++ u ++ "/" ++ r ++ "/" ++ rest).data
  rw [hstep1, hd1, replaceFirst_github, hA]
  rw [replaceFirstAltL_append ["/blob".data, "/blame".data] [] (by decide) _ _ "/blob".data
    (List.find?_cons_of_pos _ (isPrefixOf_append_self _ _)) ?_]
  · rw [List.nil_append, List.drop_left]
    simp only [strData_append, List.append_assoc, List.cons_append, List.nil_append]
  · intro i hi p hp
    rw [← hFull]
    rw [strLength_data] at hpre
    exact hpre i hi p hp

/-- Witness for claim C7 at the example URL split into its parts. -/
theorem normal_converter_rewrites_witness :
    converterNormal ("https://github.com/" ++ "u" ++ "/" ++ "r" ++ "/blob/" ++ "main/f.go#L5-L10")
      = "https://raw.githubusercontent.com/" ++ "u" ++ "/" ++ "r" ++ "/" ++ "main/f.go#L5-L10" :=
  (normal_converter_rewrites "u" "r" "main/f.go#L5-L10" (by decide) (by decide)).1

/-- Claim C8: when the Gist pattern's `user`, `id` or `opts` group is
missing (absent or empty) on the URL with line markers stripped, the Gist
converter returns `null`, and `resolveGitHubResults` emits no entry for a
match carrying that converter: the surrounding matches resolve as if the
match were not there. -/
theorem gist_converter_missing_parts (url : String) (g : GistGroups)
    (hexec : gistExec (stripLineMarkers url) = some g)
    (hmiss : jsFalsyS g.user = true ∨ jsFalsyS g.id = true ∨ jsFalsyS g.opts = true) :
    converterGist url = none ∧
      ∀ (fetch : String → Option String) (ms1 ms2 : List GitHubMatchResult)
        (opts : Option String) (rgx : String → Option (String × Option String)),
        resolveGitHubResults fetch
            (ms1 ++ ⟨converterGist, opts, rgx, GitHubUrlType.Gist, url⟩ :: ms2)
          = resolveGitHubResults fetch ms1 ++ resolveGitHubResults fetch ms2 := by
  have hnone : converterGist url = none := by
    unfold converterGist
    rw [hexec]
    dsimp only
    have hcond : (jsFalsyS g.user || jsFalsyS g.id || jsFalsyS g.opts) = true := by
      rcases hmiss with h | h | h <;> simp [h]
    rw [if_pos hcond]
  refine ⟨hnone, ?_⟩
  intro fetch ms1 ms2 opts rgx
  have hdrop : resolveOne fetch ⟨converterGist, opts, rgx, GitHubUrlType.Gist, url⟩ = none := by
    unfold resolveOne
    rw [show (⟨converterGist, opts, rgx, GitHubUrlType.Gist, url⟩ :
      GitHubMatchResult).converter url = none from hnone]
  rw [resolveGitHubResults_eq_filterMap, List.filterMap_append, List.filterMap_cons, hdrop,
    resolveGitHubResults_eq_filterMap, resolveGitHubResults_eq_filterMap]

/-- Witness for claim C8 at a Gist URL lacking its file qualifier. -/
theorem gist_converter_missing_parts_witness :
    gistExec (stripLineMarkers "https://gist.github.com/usr/abc123")
        = some ⟨some "usr", some "abc123", none⟩ ∧
      jsFalsyS (none : Option String) = true ∧
      converterGist "https://gist.github.com/usr/abc123" = none ∧
      resolveGitHubResults (fun _ => none)
          ([] ++ (⟨converterGist, none, fun _ => none, GitHubUrlType.Gist,
            "https://gist.github.com/usr/abc123"⟩ : GitHubMatchResult) :: [])
        = resolveGitHubResults (fun _ => none) []
            ++ resolveGitHubResults (fun _ => none) [] := by
  refine ⟨by decide, by decide, ?_, ?_⟩
  · exact (gist_converter_missing_parts "https://gist.github.com/usr/abc123"
      ⟨some "usr", some "abc123", none⟩ (by decide) (Or.inr (Or.inr (by decide)))).1
  · exact (gist_converter_missing_parts "https://gist.github.com/usr/abc123"
      ⟨some "usr", some "abc123", none⟩ (by decide) (Or.inr (Or.inr (by decide)))).2
      (fun _ => none) [] [] none (fun _ => none)
